import Mathlib

/-!
Verification of the Minerva knowledge-base core (src/minerva) against its
natural-language specification.

The Python modules are shallowly embedded: pydantic models become structures,
Python dicts become insertion-ordered association lists, floats become
rationals, external collaborators (embedding model, LLM judgments, the Neo4j
store) become explicit function parameters carrying their results, and the
Python exceptions the code can raise (AttributeError, pydantic
ValidationError, ValueError) become an explicit error type threaded through
`Except`.
-/

namespace Minerva

/-! ### Python runtime model: errors, dicts, fresh ids -/

/-- Python exceptions the embedded code can raise.
`validationError cls missing` models pydantic rejecting a constructor call
whose required fields `missing` were not supplied. -/
inductive PyError where
  | attributeError (cls attr : String)
  | validationError (cls : String) (missing : List String)
  | valueError (msg : String)
deriving DecidableEq, Repr

/-- Insertion-ordered association list standing in for a Python `dict`:
updating an existing key keeps its position, a new key is appended.  -/
def dinsert {α β : Type} [DecidableEq α] : List (α × β) → α → β → List (α × β)
  | [], k, v => [(k, v)]
  | (k', v') :: rest, k, v =>
      if k' = k then (k, v) :: rest else (k', v') :: dinsert rest k v

/-- `dict.get`: value of the first (unique) entry for `k`. -/
def dlookup {α β : Type} [DecidableEq α] : List (α × β) → α → Option β
  | [], _ => none
  | (k', v') :: rest, k => if k' = k then some v' else dlookup rest k

/-- `dict.get(k, d)`. -/
def dgetD {α β : Type} [DecidableEq α] (m : List (α × β)) (k : α) (d : β) : β :=
  (dlookup m k).getD d

/-- Fresh opaque identifiers: stands in for the `uuid4` default factory of
`BaseNode`/`BaseRelation` ids.  Injectivity models uuid uniqueness. -/
def uuidOf (n : Nat) : String := String.mk (List.replicate n 'u')

/-! ### Graph data model (minerva/core/base.py, node.py, relation.py)

Fields of pydantic models are kept in source order; `created_at` timestamps
are irrelevant to every claim and are omitted from the structures, but they
are accounted for in the pydantic required-field lists and in the Neo4j
property lists, where the source mentions them. -/

/-- minerva/core/node.py, class EntityNode (with BaseNode fields). -/
structure EntityNode where
  id : String
  name : String
  name_embedding : List ℚ
  summary : String
deriving DecidableEq, Repr

/-- minerva/core/node.py, class TopicNode (with BaseNode fields).
`level` is an integer in the source; the HLC detector's level arithmetic
uses -1 as a sentinel, so it is embedded as `Int`. -/
structure TopicNode where
  id : String
  name : String
  summary : String
  summary_embedding : List ℚ
  level : Int
deriving DecidableEq, Repr

/-- minerva/core/relation.py, class RelatesToRelation (with BaseRelation fields). -/
structure RelatesToRelation where
  id : String
  from_id : String
  to_id : String
  relation_type : String
  fact : String
  fact_embedding : List ℚ
  sources : List String
  contradictory_relations : List String
deriving DecidableEq, Repr

/-- minerva/core/relation.py, class IsSubtopicRelation (endpoint ids only;
no other declared field matters to the claims). -/
structure IsSubtopicRelation where
  from_id : String
  to_id : String
deriving DecidableEq, Repr

/-- minerva/core/relation.py, class BelongsToRelation (endpoint ids only). -/
structure BelongsToRelation where
  from_id : String
  to_id : String
deriving DecidableEq, Repr

/-- Python truthiness of an `Optional[str]`: `None` and `""` are falsy. -/
def truthyOptStr : Option String → Bool
  | none => false
  | some s => s ≠ ""

/-! ### Fact extraction (minerva/minerva.py, Minerva._extract_facts) -/

/-- minerva/prompt/model.py, class Fact (the `reasoning` field is never read
by the embedded code and is omitted). -/
structure Fact where
  from_entity : String
  to_entity : String
  relation_type : String
  fact : String
deriving DecidableEq, Repr

/-- `{e.name: e.id for e in entities}` from Minerva._extract_facts. -/
def entity_name_map (entities : List EntityNode) : List (String × String) :=
  entities.foldl (fun m e => dinsert m e.name e.id) []

/-- The `valid_facts` filter of Minerva._extract_facts:
`if from_id and to_id and from_id != to_id` — both entity names must resolve,
to truthy (non-empty) ids, and the two ids must differ. -/
def valid_facts (entities : List EntityNode) (facts : List Fact) :
    List (Fact × String × String) :=
  facts.filterMap (fun f =>
    match dlookup (entity_name_map entities) f.from_entity,
          dlookup (entity_name_map entities) f.to_entity with
    | some fi, some ti =>
        if fi ≠ "" ∧ ti ≠ "" ∧ fi ≠ ti then some (f, fi, ti) else none
    | _, _ => none)

/-- Minerva._extract_facts: builds one RelatesToRelation per valid fact,
zipping the embedding batch (embedded as the pointwise `embedFn`), with the
source node's id as the single evidence source.  Relation ids come from the
uuid factory, embedded as fresh ids per position. -/
def extract_facts_relations (source_id : String) (entities : List EntityNode)
    (facts : List Fact) (embedFn : String → List ℚ) : List RelatesToRelation :=
  (valid_facts entities facts).enum.map (fun (i, f, fi, ti) =>
    { id := uuidOf i
      from_id := fi
      to_id := ti
      relation_type := f.relation_type
      fact := f.fact
      fact_embedding := embedFn f.fact
      sources := [source_id]
      contradictory_relations := [] })

theorem valid_facts_ne {entities : List EntityNode} {facts : List Fact}
    {f : Fact} {fi ti : String} (h : (f, fi, ti) ∈ valid_facts entities facts) :
    fi ≠ ti := by
  unfold valid_facts at h
  rcases List.mem_filterMap.mp h with ⟨g, _, hg⟩
  rcases hfrom : dlookup (entity_name_map entities) g.from_entity with _ | fi' <;>
    rw [hfrom] at hg
  · simp at hg
  rcases hto : dlookup (entity_name_map entities) g.to_entity with _ | ti' <;>
    rw [hto] at hg
  · simp at hg
  dsimp only at hg
  split at hg
  · rename_i hc
    cases hg
    exact hc.2.2
  · cases hg

/-- C8: every RelatesToRelation produced by Minerva._extract_facts has
distinct endpoint entity ids — facts whose resolved from-id equals their
resolved to-id are filtered out before the relation is built. -/
theorem extract_facts_no_self_relations (source_id : String)
    (entities : List EntityNode) (facts : List Fact) (embedFn : String → List ℚ) :
    ∀ r ∈ extract_facts_relations source_id entities facts embedFn,
      r.from_id ≠ r.to_id := by
  intro r hr
  unfold extract_facts_relations at hr
  rcases List.mem_map.mp hr with ⟨⟨i, f, fi, ti⟩, hmem, hbuilt⟩
  obtain ⟨hlt, heq⟩ := List.mem_enum hmem
  have hv : (f, fi, ti) ∈ valid_facts entities facts :=
    heq ▸ List.getElem_mem hlt
  have : r.from_id = fi ∧ r.to_id = ti := by
    cases hbuilt; exact ⟨rfl, rfl⟩
  rw [this.1, this.2]
  exact valid_facts_ne hv

def entsC8 : List EntityNode :=
  [{ id := "e1", name := "Apple", name_embedding := [], summary := "" },
   { id := "e2", name := "Microsoft", name_embedding := [], summary := "" }]

def factsC8 : List Fact :=
  [{ from_entity := "Apple", to_entity := "Microsoft",
     relation_type := "PARTNERS_WITH", fact := "Apple partners with Microsoft" }]

def relC8 : RelatesToRelation :=
  { id := uuidOf 0
    from_id := "e1"
    to_id := "e2"
    relation_type := "PARTNERS_WITH"
    fact := "Apple partners with Microsoft"
    fact_embedding := []
    sources := ["s1"]
    contradictory_relations := [] }

/-- Witness for C8 at a concrete extraction. -/
theorem extract_facts_no_self_relations_witness : relC8.from_id ≠ relC8.to_id :=
  extract_facts_no_self_relations "s1" entsC8 factsC8 (fun _ => []) relC8
    (by decide)

/-! ### Pydantic required-field validation

A pydantic constructor call rejects any call that omits a required field
(one declared without a default); `id` and `created_at` have `uuid4` /
timestamp default factories in BaseNode and BaseRelation. -/

def pydantic_missing (required supplied : List String) : List String :=
  required.filter (fun f => !(supplied.contains f))

def pydantic_check (cls : String) (required supplied : List String) :
    Except PyError Unit :=
  match pydantic_missing required supplied with
  | [] => .ok ()
  | missing => .error (.validationError cls missing)

/-- Required (no-default) fields of EntityNode: `name`, `name_embedding`,
`summary` (minerva/core/node.py). -/
def entity_node_required_fields : List String := ["name", "name_embedding", "summary"]

/-! ### Fact resolution (minerva/minerva.py, Minerva._resolve_relations;
minerva/prompt/relation.py, resolve_fact) -/

/-- Shape of the fact-resolution judgment.  minerva/minerva.py imports
`FactResolution` from minerva/prompt/model.py, which does not define such a
class; the shape here is the one Minerva._resolve_relations reads from the
judgment result: `is_duplicate` and `existing_relation_id`.  resolve_fact's
prompt poses a single question, marking the new relation a duplicate exactly
when it carries strictly-subset or duplicate information. -/
structure FactResolution where
  is_duplicate : Bool
  existing_relation_id : Option String
deriving DecidableEq, Repr

/-- Python's `sorted` order on `str`: lexicographic by code point.  Stated on
the underlying character lists, which the kernel can evaluate. -/
def pyStrLe (a b : String) : Prop := a.data < b.data ∨ a.data = b.data

instance : DecidableRel pyStrLe := fun a b => by
  unfold pyStrLe
  infer_instance

/-- `sorted(set(candidate.sources + relation.sources))`. -/
def sortedSourceUnion (a b : List String) : List String :=
  List.insertionSort pyStrLe (a ++ b).dedup

/-- Body of Minerva._resolve_relations.process_relation once the similarity
results and the judgment are in hand: tag 1 (duplicate-and-merge, first
candidate whose id the judgment named, evidence sources unioned) or
tag 0 (new).  There is no third tag. -/
def process_relation (relation : RelatesToRelation)
    (similar_relations : List RelatesToRelation) (resolution : FactResolution) :
    Nat × RelatesToRelation :=
  if similar_relations ≠ [] then
    if resolution.is_duplicate ∧ truthyOptStr resolution.existing_relation_id then
      match similar_relations.find?
          (fun c => decide (some c.id = resolution.existing_relation_id)) with
      | some c => (1, { c with sources := sortedSourceUnion c.sources relation.sources })
      | none => (0, relation)
    else (0, relation)
  else (0, relation)

/-- Method names the class body of Neo4jDriver defines
(minerva/kb/driver.py). -/
def neo4j_driver_methods : List String :=
  ["__init__", "bulk_create_nodes", "bulk_create_relations",
   "bulk_update_relations", "create_vector_indexes", "clear_graph", "query",
   "close", "find_similar_entities", "get_entities", "get_hierarchy",
   "get_topics", "get_children", "get_parent"]

/-- Python attribute resolution on a Neo4jDriver instance. -/
def getattr_driver (attr : String) : Except PyError Unit :=
  if attr ∈ neo4j_driver_methods then .ok ()
  else .error (.attributeError "Neo4jDriver" attr)

/-- One resolution task of Minerva._resolve_relations: its first operation
resolves the attribute `find_similar_relations` on the driver; only if that
succeeds does it obtain the similarity results and the judgment and run the
outcome logic. -/
def process_relation_task (relation : RelatesToRelation)
    (simFn : RelatesToRelation → List RelatesToRelation)
    (judgeFn : RelatesToRelation → FactResolution) :
    Except PyError (Nat × RelatesToRelation) := do
  let _ ← getattr_driver "find_similar_relations"
  pure (process_relation relation (simFn relation) (judgeFn relation))

/-- Minerva._resolve_relations: empty input short-circuits; otherwise every
relation is resolved as a task and the results are split by tag into
(new_relations, relations_to_update). -/
def resolve_relations_run (relations : List RelatesToRelation)
    (simFn : RelatesToRelation → List RelatesToRelation)
    (judgeFn : RelatesToRelation → FactResolution) :
    Except PyError (List RelatesToRelation × List RelatesToRelation) :=
  if relations = [] then .ok ([], [])
  else do
    let results ← relations.mapM (fun r => process_relation_task r simFn judgeFn)
    pure (results.filterMap (fun ar => if ar.1 = 0 then some ar.2 else none),
          results.filterMap (fun ar => if ar.1 = 1 then some ar.2 else none))

/-- C1 (amended): fact resolution is two-way.  Each resolution task either
keeps the new relation with tag 0 (new) or, with tag 1, merges into a
candidate the judgment named: the candidate's evidence-source list is
replaced by the sorted union and nothing else about it changes.  No branch
discards the fact. -/
theorem process_relation_two_outcomes (relation : RelatesToRelation)
    (sims : List RelatesToRelation) (res : FactResolution) :
    process_relation relation sims res = (0, relation) ∨
    ∃ c, c ∈ sims ∧ some c.id = res.existing_relation_id ∧
      process_relation relation sims res =
        (1, { c with sources := sortedSourceUnion c.sources relation.sources }) := by
  unfold process_relation
  by_cases hne : sims ≠ []
  · rw [if_pos hne]
    by_cases hdup : res.is_duplicate ∧ truthyOptStr res.existing_relation_id
    · rw [if_pos hdup]
      rcases hfind : sims.find? (fun c => decide (some c.id = res.existing_relation_id)) with _ | c
      · rw [hfind]
        exact Or.inl rfl
      · rw [hfind]
        refine Or.inr ⟨c, List.mem_of_find?_eq_some hfind, ?_, rfl⟩
        have := List.find?_some hfind
        exact of_decide_eq_true this
    · rw [if_neg hdup]
      exact Or.inl rfl
  · rw [if_neg hne]
    exact Or.inl rfl

def relC1 : RelatesToRelation :=
  { id := "r-new", from_id := "e1", to_id := "e2", relation_type := "CEO_OF",
    fact := "Tim Cook is CEO of Apple", fact_embedding := [],
    sources := ["s2"], contradictory_relations := [] }

def candC1 : RelatesToRelation :=
  { id := "r-old", from_id := "e1", to_id := "e2", relation_type := "CEO_OF",
    fact := "Tim Cook is CEO of Apple since 2011", fact_embedding := [],
    sources := ["s1"], contradictory_relations := [] }

/-- C1 counterexample: a new fact the single judgment marks as
strict-subset/duplicate of an offered candidate (the only way the code can
record a subset verdict) is not dropped: the task yields tag 1 and the
candidate is persisted to the update list with the new fact's source merged
in.  No subset-discard outcome and no second, independent subset judgment
exist. -/
theorem fact_subset_merged_not_discarded :
    process_relation relC1 [candC1]
        { is_duplicate := true, existing_relation_id := some "r-old" } =
      (1, { candC1 with sources := ["s1", "s2"] }) := by
  rfl

def relC7 : RelatesToRelation :=
  { id := "r7", from_id := "a", to_id := "b", relation_type := "T",
    fact := "f", fact_embedding := [], sources := [],
    contradictory_relations := [] }

/-- C7: with any non-empty relations list, Minerva._resolve_relations fails
with an AttributeError on `find_similar_relations` before any similarity
result or judgment is consulted — Neo4jDriver declares no such method, only
`find_similar_entities`. -/
theorem resolve_relations_attribute_error (relations : List RelatesToRelation)
    (simFn : RelatesToRelation → List RelatesToRelation)
    (judgeFn : RelatesToRelation → FactResolution) (h : relations ≠ []) :
    resolve_relations_run relations simFn judgeFn =
      .error (.attributeError "Neo4jDriver" "find_similar_relations") ∧
    "find_similar_relations" ∉ neo4j_driver_methods ∧
    "find_similar_entities" ∈ neo4j_driver_methods := by
  refine ⟨?_, by decide, by decide⟩
  obtain ⟨r, rs, rfl⟩ := List.exists_cons_of_ne_nil h
  simp only [resolve_relations_run, if_neg h, List.mapM_cons]
  have hfail : process_relation_task r simFn judgeFn =
      .error (.attributeError "Neo4jDriver" "find_similar_relations") := by
    unfold process_relation_task getattr_driver
    rw [if_neg (by decide)]
    rfl
  rw [hfail]
  rfl

/-- Witness for C7 on a concrete singleton batch. -/
theorem resolve_relations_attribute_error_witness :
    resolve_relations_run [relC7] (fun _ => []) (fun _ => ⟨false, none⟩) =
      .error (.attributeError "Neo4jDriver" "find_similar_relations") :=
  (resolve_relations_attribute_error [relC7] (fun _ => [])
    (fun _ => ⟨false, none⟩) (by decide)).1

/-! ### Entity resolution (minerva/minerva.py, Minerva._resolve_entities) -/

/-- minerva/prompt/model.py, class EntityResolution. -/
structure EntityResolution where
  reasoning : String
  is_duplicate : Bool
  name : String
  existing_entity_name : Option String
  existing_entity_id : Option String
deriving DecidableEq, Repr

/-- Minerva._resolve_entities.process_entity given the similarity results and
the judgment: if the judgment affirms a duplicate and names the id of one of
the offered candidates, that existing entity is returned with tag 1;
otherwise the code calls `EntityNode(name=…, name_embedding=…)`, which
pydantic rejects because the required field `summary` is not supplied, so the
new-entity arm below the check is unreachable (its `summary := ""` filler
never escapes). -/
def process_entity (entity_name : String) (name_embedding : List ℚ)
    (similar_entities : List EntityNode) (resolution : EntityResolution)
    (fresh_id : String) : Except PyError (Nat × EntityNode) :=
  match (if similar_entities ≠ [] ∧ resolution.is_duplicate ∧
            truthyOptStr resolution.existing_entity_id
         then similar_entities.find?
                (fun e => decide (some e.id = resolution.existing_entity_id))
         else none) with
  | some existing => .ok (1, existing)
  | none =>
      match pydantic_check "EntityNode" entity_node_required_fields
          ["name", "name_embedding"] with
      | .error e => .error e
      | .ok _ => .ok (0, { id := fresh_id, name := entity_name,
                           name_embedding := name_embedding, summary := "" })

/-- C6: whenever the resolution outcome is 'new' — no similar entities, a
non-affirmative judgment, a judgment naming no usable id, or an affirmative
judgment naming an id outside the candidate set — process_entity raises a
pydantic validation error for the missing required field `summary` instead of
producing a new EntityNode. -/
theorem process_entity_new_path_validation_error (entity_name : String)
    (emb : List ℚ) (sims : List EntityNode) (res : EntityResolution)
    (fid : String)
    (h : sims = [] ∨ res.is_duplicate = false ∨
         truthyOptStr res.existing_entity_id = false ∨
         ∀ e ∈ sims, some e.id ≠ res.existing_entity_id) :
    process_entity entity_name emb sims res fid =
      .error (.validationError "EntityNode" ["summary"]) := by
  have hnone : (if sims ≠ [] ∧ res.is_duplicate ∧
            truthyOptStr res.existing_entity_id
         then sims.find? (fun e => decide (some e.id = res.existing_entity_id))
         else none) = none := by
    rcases h with h | h | h | h
    · rw [if_neg]; simp [h]
    · rw [if_neg]; simp [h]
    · rw [if_neg]; simp [h]
    · by_cases hc : sims ≠ [] ∧ res.is_duplicate ∧ truthyOptStr res.existing_entity_id
      · rw [if_pos hc]
        exact List.find?_eq_none.mpr (fun e he => by simpa using h e he)
      · rw [if_neg hc]
  unfold process_entity
  rw [hnone]
  rfl

/-- Witness for C6: a candidate with no similar entities at all. -/
theorem process_entity_new_path_validation_error_witness :
    process_entity "Apple" [] []
        { reasoning := "", is_duplicate := false, name := "Apple",
          existing_entity_name := none, existing_entity_id := none } "f1" =
      .error (.validationError "EntityNode" ["summary"]) :=
  process_entity_new_path_validation_error "Apple" [] [] _ "f1" (Or.inl rfl)

def candC4 : EntityNode :=
  { id := "ent-1", name := "Apple Inc.", name_embedding := [],
    summary := "Apple is a company" }

/-- C4 at the code's failing input: when the affirmative judgment names an id
that is not among the offered candidates, the code reaches the new-Entity
constructor and crashes with the missing-`summary` validation error — it does
not produce a new Entity.  When the named id is among the candidates, the
matching existing entity is returned. -/
theorem process_entity_fail_safe_behavior :
    process_entity "Apple" [] [candC4]
        { reasoning := "", is_duplicate := true, name := "Apple",
          existing_entity_name := some "Apple Inc.",
          existing_entity_id := some "ent-99" } "fresh-id" =
      .error (.validationError "EntityNode" ["summary"]) ∧
    process_entity "Apple" [] [candC4]
        { reasoning := "", is_duplicate := true, name := "Apple",
          existing_entity_name := some "Apple Inc.",
          existing_entity_id := some "ent-1" } "fresh-id" =
      .ok (1, candC4) := by
  constructor <;> rfl

/-! ### Persistence gateway update path (minerva/kb/driver.py,
Neo4jDriver.bulk_update_relations; minerva/core/relation.py,
RelatesToRelation.get_neo4j_metadata) -/

/-- `RelatesToRelation.get_neo4j_metadata()["properties"]` — the class's one
declared property list, used unchanged by both the create and the update
statement builders.  No separate mutable-property list exists anywhere. -/
def relates_to_metadata_properties : List String :=
  ["id", "created_at", "relation_type", "fact", "fact_embedding", "sources",
   "contradictory_relations"]

/-- The assignments bulk_update_relations joins into its `SET` clause:
one `r.p = rel.p` per entry of the declared property list. -/
def update_set_clauses (properties : List String) : List String :=
  properties.map (fun p => "r." ++ p ++ " = rel." ++ p)

/-- Effect of executing that `SET` on the stored property map of the matched
relation, given the update payload `rel`. -/
def apply_update_set (properties : List String) (rel stored : String → String) :
    String → String :=
  fun p => if p ∈ properties then rel p else stored p

def storedC3 : String → String := fun p =>
  if p = "fact" then "old fact" else if p = "sources" then "old sources"
  else "stored"

def payloadC3 : String → String := fun p =>
  if p = "fact" then "new fact" else if p = "sources" then "new sources"
  else "payload"

/-- C3 counterexample: `fact` is in the generated property list, so the
update statement overwrites the matched relation's stored `fact` — the
statement is not restricted to `sources`. -/
theorem bulk_update_not_restricted_to_sources :
    "fact" ∈ relates_to_metadata_properties ∧ "fact" ≠ "sources" ∧
    apply_update_set relates_to_metadata_properties payloadC3 storedC3 "fact" =
      "new fact" ∧
    storedC3 "fact" = "old fact" := by
  refine ⟨by decide, by decide, ?_, rfl⟩
  rfl

/-- C3 (amended): the generated set-properties statement for a RelatesTo
update batch sets exactly the relation class's full declared property list —
all seven persisted properties, not only `sources` — overwriting each with
the payload value; only properties outside the declared list keep their
stored value. -/
theorem bulk_update_sets_full_declared_property_list
    (rel stored : String → String) :
    update_set_clauses relates_to_metadata_properties =
      ["r.id = rel.id", "r.created_at = rel.created_at",
       "r.relation_type = rel.relation_type", "r.fact = rel.fact",
       "r.fact_embedding = rel.fact_embedding", "r.sources = rel.sources",
       "r.contradictory_relations = rel.contradictory_relations"] ∧
    (∀ p ∈ relates_to_metadata_properties,
      apply_update_set relates_to_metadata_properties rel stored p = rel p) ∧
    (∀ p, p ∉ relates_to_metadata_properties →
      apply_update_set relates_to_metadata_properties rel stored p = stored p) := by
  refine ⟨by decide, fun p hp => ?_, fun p hp => ?_⟩
  · simp [apply_update_set, hp]
  · simp [apply_update_set, hp]

/-- Witness for C3's amended statement: `sources` is overwritten from the
payload and an undeclared property keeps its stored value. -/
theorem bulk_update_sets_full_declared_property_list_witness :
    apply_update_set relates_to_metadata_properties payloadC3 storedC3
        "sources" = payloadC3 "sources" ∧
    apply_update_set relates_to_metadata_properties payloadC3 storedC3
        "topic_id" = storedC3 "topic_id" :=
  ⟨(bulk_update_sets_full_declared_property_list payloadC3 storedC3).2.1
      "sources" (by decide),
   (bulk_update_sets_full_declared_property_list payloadC3 storedC3).2.2
      "topic_id" (by decide)⟩

/-! ### Community-count threshold selection
(minerva/clustering/threshold_selector.py, CommunityCountSelector.select) -/

/-- Replay of the linkage merge sequence: the live community count starts at
`numInitial`, recorded under the seed similarity 1.0; each merge decrements
it and records the count against the merge's similarity (a later merge at the
same similarity overwrites the record in place). -/
def similarity_to_num_communities (linkage : List (Int × Int × ℚ))
    (numInitial : Int) : List (ℚ × Int) :=
  (linkage.foldl (fun st m => (dinsert st.1 m.2.2 (st.2 - 1), st.2 - 1))
    ([((1 : ℚ), numInitial)], numInitial)).1

/-- `max(max(c1, c2) for c1, c2, _ in linkage) + 1` (well defined because
select returns early on an empty linkage, where Python's `max` would raise). -/
def num_initial_communities (linkage : List (Int × Int × ℚ)) : Int :=
  match linkage with
  | [] => 0
  | m :: rest =>
      (rest.foldl (fun acc x => max acc (max x.1 x.2.1)) (max m.1 m.2.1)) + 1

/-- One step of the inner loop over
`similarity_to_num_communities.items()`: keep the first entry whose
count-distance to the target strictly improves on the running minimum
(`min_diff`, initially infinite, embedded as `none`). -/
def cs_step (target : Int) (best : Option (ℚ × Nat)) (e : ℚ × Int) :
    Option (ℚ × Nat) :=
  match best with
  | none => some (e.1, (e.2 - target).natAbs)
  | some (s, d) =>
      if (e.2 - target).natAbs < d then some (e.1, (e.2 - target).natAbs)
      else some (s, d)

/-- The similarity kept by the loop, if any. -/
def closest_similarity (entries : List (ℚ × Int)) (target : Int) : Option ℚ :=
  (entries.foldl (cs_step target) none).map Prod.fst

theorem cs_step_ne_none (target : Int) (acc : Option (ℚ × Nat)) (x : ℚ × Int) :
    cs_step target acc x ≠ none := by
  rcases acc with _ | ⟨s, d⟩
  · simp [cs_step]
  · show (if (x.2 - target).natAbs < d then some (x.1, (x.2 - target).natAbs)
        else some (s, d)) ≠ none
    split <;> simp

theorem cs_fold_ne_none (target : Int) :
    ∀ (entries : List (ℚ × Int)) (acc : Option (ℚ × Nat)),
      acc ≠ none ∨ entries ≠ [] →
      entries.foldl (cs_step target) acc ≠ none := by
  intro entries
  induction entries with
  | nil =>
      intro acc h
      rcases h with h | h
      · simpa using h
      · exact absurd rfl h
  | cons x rest ih =>
      intro acc _
      rw [List.foldl_cons]
      exact ih _ (Or.inl (cs_step_ne_none target acc x))

theorem cs_fold_some_spec (target : Int) :
    ∀ (entries : List (ℚ × Int)) (acc : Option (ℚ × Nat)) (s : ℚ) (d : Nat),
      entries.foldl (cs_step target) acc = some (s, d) →
      (acc = some (s, d) ∨ ∃ n, (s, n) ∈ entries ∧ d = (n - target).natAbs) ∧
      (∀ p ∈ entries, d ≤ (p.2 - target).natAbs) ∧
      (∀ s0 d0, acc = some (s0, d0) → d ≤ d0) := by
  intro entries
  induction entries with
  | nil =>
      intro acc s d h
      rw [List.foldl_nil] at h
      subst h
      refine ⟨Or.inl rfl, by simp, ?_⟩
      intro s0 d0 h0
      cases h0
      exact le_refl d
  | cons x rest ih =>
      obtain ⟨xs, xn⟩ := x
      intro acc s d h
      rw [List.foldl_cons] at h
      have h1 := ih (cs_step target acc (xs, xn)) s d h
      rcases acc with _ | ⟨s0, d0⟩
      · have hstep : cs_step target none (xs, xn) =
            some (xs, (xn - target).natAbs) := rfl
        rw [hstep] at h1
        refine ⟨?_, ?_, ?_⟩
        · rcases h1.1 with heq | ⟨n, hn, hd⟩
          · cases heq
            exact Or.inr ⟨xn, List.mem_cons_self _ _, rfl⟩
          · exact Or.inr ⟨n, List.mem_cons_of_mem _ hn, hd⟩
        · intro p hp
          rcases List.mem_cons.mp hp with rfl | hpr
          · exact h1.2.2 _ _ rfl
          · exact h1.2.1 p hpr
        · intro s1 d1 h0
          exact absurd h0 (by simp)
      · by_cases hlt : (xn - target).natAbs < d0
        · have hstep : cs_step target (some (s0, d0)) (xs, xn) =
              some (xs, (xn - target).natAbs) := by
            simp [cs_step, hlt]
          rw [hstep] at h1
          refine ⟨?_, ?_, ?_⟩
          · rcases h1.1 with heq | ⟨n, hn, hd⟩
            · cases heq
              exact Or.inr ⟨xn, List.mem_cons_self _ _, rfl⟩
            · exact Or.inr ⟨n, List.mem_cons_of_mem _ hn, hd⟩
          · intro p hp
            rcases List.mem_cons.mp hp with rfl | hpr
            · exact h1.2.2 _ _ rfl
            · exact h1.2.1 p hpr
          · intro s1 d1 h0
            cases h0
            exact le_trans (h1.2.2 _ _ rfl) (le_of_lt hlt)
        · have hstep : cs_step target (some (s0, d0)) (xs, xn) =
              some (s0, d0) := by
            simp [cs_step, hlt]
          rw [hstep] at h1
          refine ⟨?_, ?_, ?_⟩
          · rcases h1.1 with heq | ⟨n, hn, hd⟩
            · exact Or.inl heq
            · exact Or.inr ⟨n, List.mem_cons_of_mem _ hn, hd⟩
          · intro p hp
            rcases List.mem_cons.mp hp with rfl | hpr
            · exact le_trans (h1.2.2 _ _ rfl) (not_lt.mp hlt)
            · exact h1.2.1 p hpr
          · intro s1 d1 h0
            cases h0
            exact h1.2.2 _ _ rfl

/-- `sorted(set(l), reverse=True)`. -/
def sortDescDedup (l : List ℚ) : List ℚ :=
  List.insertionSort (fun a b => b ≤ a) l.dedup

/-- CommunityCountSelector.select (the constructor sorts `target_counts`
ascending; `list_D` is accepted but unused by this policy). -/
def community_count_select (target_counts : List Int) (list_D : List (ℚ × ℚ))
    (linkage : List (Int × Int × ℚ)) : List ℚ :=
  if linkage = [] then []
  else
    let s2n := similarity_to_num_communities linkage
      (num_initial_communities linkage)
    let selected := (List.insertionSort (· ≤ ·) target_counts).filterMap
      (fun t => closest_similarity s2n t)
    sortDescDedup selected

theorem similarity_to_num_communities_ne_nil (linkage : List (Int × Int × ℚ))
    (numInitial : Int) :
    similarity_to_num_communities linkage numInitial ≠ [] := by
  unfold similarity_to_num_communities
  have : ∀ (l : List (Int × Int × ℚ)) (st : List (ℚ × Int) × Int), st.1 ≠ [] →
      (l.foldl (fun st m => (dinsert st.1 m.2.2 (st.2 - 1), st.2 - 1)) st).1 ≠ [] := by
    intro l
    induction l with
    | nil => exact fun st h => h
    | cons m rest ih =>
        intro st h
        rw [List.foldl_cons]
        refine ih _ ?_
        rcases hst : st.1 with _ | ⟨p, ps⟩
        · exact absurd hst h
        · simp only [hst, dinsert]
          split <;> simp
  exact this linkage ([((1 : ℚ), numInitial)], numInitial) (by simp)

/-- C10: for a non-empty linkage and a single target count k, the
community-count selector returns exactly one threshold, a similarity value of
the replay record whose replayed live community count is closest to k among
every similarity value reached (the seed 1.0 included). -/
theorem community_count_selector_closest (linkage : List (Int × Int × ℚ))
    (list_D : List (ℚ × ℚ)) (k : Int) (h : linkage ≠ []) :
    ∃ s n, community_count_select [k] list_D linkage = [s] ∧
      (s, n) ∈ similarity_to_num_communities linkage
        (num_initial_communities linkage) ∧
      ∀ p ∈ similarity_to_num_communities linkage
          (num_initial_communities linkage),
        (n - k).natAbs ≤ (p.2 - k).natAbs := by
  rcases hres : (similarity_to_num_communities linkage
      (num_initial_communities linkage)).foldl (cs_step k) none with _ | ⟨s, d⟩
  · exact absurd hres (cs_fold_ne_none k _ none
      (Or.inr (similarity_to_num_communities_ne_nil _ _)))
  · have hspec := cs_fold_some_spec k
      (similarity_to_num_communities linkage (num_initial_communities linkage))
      none s d hres
    rcases hspec.1 with heq | ⟨n, hn, hd⟩
    · exact absurd heq (by simp)
    · refine ⟨s, n, ?_, hn, ?_⟩
      · have hcl : closest_similarity (similarity_to_num_communities linkage
            (num_initial_communities linkage)) k = some s := by
          unfold closest_similarity
          rw [hres]
          rfl
        unfold community_count_select
        rw [if_neg (by simpa using h)]
        simp only [List.insertionSort, List.orderedInsert, List.filterMap, hcl,
          sortDescDedup, List.dedup_cons_of_not_mem (List.not_mem_nil s),
          List.dedup_nil]
      · intro p hp
        rw [← hd]
        exact hspec.2.1 p hp

/-- Witness for C10: linkage [(0, 1, 1/2)], target 2 — the replay reaches
counts {1.0 ↦ 2, 1/2 ↦ 1} and the selector picks 1.0 (count 2, distance 0). -/
theorem community_count_selector_closest_witness :
    ∃ s n, community_count_select [2] [] [(0, 1, (1 : ℚ)/2)] = [s] ∧
      (s, n) ∈ similarity_to_num_communities [(0, 1, (1 : ℚ)/2)]
        (num_initial_communities [(0, 1, (1 : ℚ)/2)]) ∧
      ∀ p ∈ similarity_to_num_communities [(0, 1, (1 : ℚ)/2)]
          (num_initial_communities [(0, 1, (1 : ℚ)/2)]),
        (n - 2).natAbs ≤ (p.2 - 2).natAbs :=
  community_count_selector_closest [(0, 1, (1 : ℚ)/2)] [] 2
    (List.cons_ne_nil _ _)

/-! ### Association-list facts shared by the remaining sections -/

theorem mem_dinsert {α β : Type} [DecidableEq α] {m : List (α × β)} {k : α}
    {v : β} {e : α × β} (h : e ∈ dinsert m k v) : e = (k, v) ∨ e ∈ m := by
  induction m with
  | nil => simpa [dinsert] using h
  | cons p rest ih =>
      unfold dinsert at h
      split at h
      · rcases List.mem_cons.mp h with h | h
        · exact Or.inl h
        · exact Or.inr (List.mem_cons_of_mem _ h)
      · rcases List.mem_cons.mp h with h | h
        · exact Or.inr (h ▸ List.mem_cons_self _ _)
        · rcases ih h with h | h
          · exact Or.inl h
          · exact Or.inr (List.mem_cons_of_mem _ h)

theorem dlookup_dinsert_self {α β : Type} [DecidableEq α] (m : List (α × β))
    (k : α) (v : β) : dlookup (dinsert m k v) k = some v := by
  induction m with
  | nil => simp [dinsert, dlookup]
  | cons p rest ih =>
      unfold dinsert
      split
      · simp [dlookup]
      · rename_i hne
        unfold dlookup
        rw [if_neg hne]
        exact ih

theorem dlookup_dinsert_ne {α β : Type} [DecidableEq α] (m : List (α × β))
    {k k' : α} (v : β) (h : k ≠ k') : dlookup (dinsert m k v) k' = dlookup m k' := by
  induction m with
  | nil => simp [dinsert, dlookup, h]
  | cons p rest ih =>
      unfold dinsert
      split
      · rename_i hpk
        unfold dlookup
        rw [if_neg h, hpk, if_neg h]
      · unfold dlookup
        split
        · rfl
        · exact ih

theorem dlookup_isSome_of_mem {α β : Type} [DecidableEq α] {m : List (α × β)}
    {e : α × β} (h : e ∈ m) : (dlookup m e.1).isSome := by
  induction m with
  | nil => cases h
  | cons p rest ih =>
      rcases List.mem_cons.mp h with rfl | h
      · simp [dlookup]
      · unfold dlookup
        split
        · simp
        · exact ih h

theorem dlookup_mem {α β : Type} [DecidableEq α] {m : List (α × β)} {k : α}
    {v : β} (h : dlookup m k = some v) : (k, v) ∈ m := by
  induction m with
  | nil => simp [dlookup] at h
  | cons p rest ih =>
      unfold dlookup at h
      split at h
      · rename_i hk
        cases h
        rw [← hk]
        exact List.mem_cons_self _ _
      · exact List.mem_cons_of_mem _ (ih h)

theorem foldl_dinsert_ne_nil {α β γ : Type} [DecidableEq α]
    (key : γ → α) (val : γ → β) :
    ∀ (l : List γ) (m : List (α × β)), m ≠ [] ∨ l ≠ [] →
      l.foldl (fun m t => dinsert m (key t) (val t)) m ≠ [] := by
  intro l
  induction l with
  | nil =>
      intro m h
      rcases h with h | h
      · exact h
      · exact absurd rfl h
  | cons x rest ih =>
      intro m _
      rw [List.foldl_cons]
      refine ih _ (Or.inl ?_)
      rcases m with _ | ⟨p, ps⟩
      · simp [dinsert]
      · unfold dinsert
        split <;> simp

/-! ### Topic assignment (minerva/core/community.py, LouvainDetector.assign
with _compute_edge_scores / _compute_embedding_scores / _cosine_similarity) -/

/-- _cosine_similarity: the guards (empty or length-mismatched vectors, a
zero norm — a norm is zero exactly when the sum of squares is) return 0.0;
the remaining value `dot/(norm1*norm2)` involves a square root (`** 0.5`),
which has no exact rational embedding, and is abstracted as the external
parameter `cos`. -/
def cosine_similarity (cos : List ℚ → List ℚ → ℚ) (v1 v2 : List ℚ) : ℚ :=
  if v1 = [] ∨ v2 = [] ∨ v1.length ≠ v2.length then 0
  else if (v1.map (fun a => a * a)).sum = 0 ∨ (v2.map (fun a => a * a)).sum = 0 then 0
  else cos v1 v2

/-- _compute_edge_scores: one Neo4j neighbour-count query per topic (embedded
as `ncount`), then normalization by the maximum count when positive. -/
def pymax_q (l : List ℚ) : ℚ :=
  match l with
  | [] => 1
  | v :: vs => vs.foldl max v

def compute_edge_scores (ncount : String → Nat) (topics : List TopicNode) :
    List (String × ℚ) :=
  let scores := topics.foldl (fun m t => dinsert m t.id ((ncount t.id : ℚ))) []
  let maxScore : ℚ := pymax_q (scores.map Prod.snd)
  if 0 < maxScore then scores.map (fun e => (e.1, e.2 / maxScore)) else scores

/-- _compute_embedding_scores: 0.0 for a topic without a summary embedding,
otherwise the cosine similarity floored at zero. -/
def compute_embedding_scores (cos : List ℚ → List ℚ → ℚ) (entity : EntityNode)
    (topics : List TopicNode) : List (String × ℚ) :=
  topics.foldl (fun m t =>
    if t.summary_embedding = [] then dinsert m t.id 0
    else dinsert m t.id
      (max 0 (cosine_similarity cos entity.name_embedding t.summary_embedding))) []

/-- The `combined_scores` dict of LouvainDetector.assign. -/
def combined_scores (cos : List ℚ → List ℚ → ℚ) (ncount : String → Nat)
    (entity : EntityNode) (leaf_topics : List TopicNode) (alpha : ℚ) :
    List (String × ℚ) :=
  let edge_scores := compute_edge_scores ncount leaf_topics
  let embedding_scores := compute_embedding_scores cos entity leaf_topics
  leaf_topics.foldl (fun m t =>
    dinsert m t.id (alpha * dgetD edge_scores t.id 0 +
      (1 - alpha) * dgetD embedding_scores t.id 0)) []

/-- One step of Python's `max(combined_scores, key=combined_scores.get)`:
the running best is replaced only on strict improvement, so the first
maximal entry wins. -/
def pymax_step (best : Option (String × ℚ)) (e : String × ℚ) :
    Option (String × ℚ) :=
  match best with
  | none => some e
  | some b => if e.2 > b.2 then some e else some b

/-- `max(d, key=d.get)` over the insertion-ordered dict, `none` on empty. -/
def pymax_by_value (m : List (String × ℚ)) : Option String :=
  (m.foldl pymax_step none).map Prod.fst

/-- The `alpha` default of LouvainDetector.assign. -/
def defaultAlpha : ℚ := 1/2

/-- LouvainDetector.assign.  The empty-`combined_scores` fallback and the
`none` fallback of the maximum are both unreachable when leaf topics exist
(the dict gets an entry per leaf topic); their `""`/head fillers mirror
`leaf_topics[0].id` and never escape otherwise. -/
def louvain_assign (cos : List ℚ → List ℚ → ℚ) (ncount : String → Nat)
    (entity : EntityNode) (topics : List TopicNode) (alpha : ℚ) :
    Except PyError String :=
  let leaf_topics := topics.filter (fun t => t.level = 0)
  if leaf_topics = [] then
    .error (.valueError "No leaf-level topics available for assignment")
  else
    let combined := combined_scores cos ncount entity leaf_topics alpha
    if combined = [] then
      .ok (match leaf_topics with | [] => "" | t :: _ => t.id)
    else
      .ok ((pymax_by_value combined).getD "")

theorem pymax_fold_spec :
    ∀ (m : List (String × ℚ)) (acc : Option (String × ℚ)) (p : String × ℚ),
      m.foldl pymax_step acc = some p →
      (acc = some p ∧ ∀ q ∈ m, q.2 ≤ p.2) ∨
      (∃ l1 l2, m = l1 ++ p :: l2 ∧ (∀ q ∈ l1, q.2 < p.2) ∧
        (∀ q ∈ l2, q.2 ≤ p.2) ∧ (∀ b, acc = some b → b.2 < p.2)) := by
  intro m
  induction m with
  | nil =>
      intro acc p h
      rw [List.foldl_nil] at h
      exact Or.inl ⟨h, by simp⟩
  | cons x rest ih =>
      intro acc p h
      rw [List.foldl_cons] at h
      have h1 := ih (pymax_step acc x) p h
      rcases acc with _ | b
      · have hstep : pymax_step none x = some x := rfl
        rw [hstep] at h1
        rcases h1 with ⟨heq, hall⟩ | ⟨l1, l2, hsplit, hl1, hl2, hacc⟩
        · cases heq
          exact Or.inr ⟨[], rest, rfl, by simp, hall, by simp⟩
        · refine Or.inr ⟨x :: l1, l2, by rw [hsplit]; rfl, ?_, hl2, by simp⟩
          intro q hq
          rcases List.mem_cons.mp hq with rfl | hq
          · exact hacc _ rfl
          · exact hl1 q hq
      · by_cases hgt : x.2 > b.2
        · have hstep : pymax_step (some b) x = some x := by
            simp [pymax_step, hgt]
          rw [hstep] at h1
          rcases h1 with ⟨heq, hall⟩ | ⟨l1, l2, hsplit, hl1, hl2, hacc⟩
          · cases heq
            exact Or.inr ⟨[], rest, rfl, by simp, hall,
              fun c hc => by cases hc; exact hgt⟩
          · refine Or.inr ⟨x :: l1, l2, by rw [hsplit]; rfl, ?_, hl2,
              fun c hc => by cases hc; exact lt_trans hgt (hacc _ rfl)⟩
            intro q hq
            rcases List.mem_cons.mp hq with rfl | hq
            · exact hacc _ rfl
            · exact hl1 q hq
        · have hstep : pymax_step (some b) x = some b := by
            simp [pymax_step, hgt]
          rw [hstep] at h1
          rcases h1 with ⟨heq, hall⟩ | ⟨l1, l2, hsplit, hl1, hl2, hacc⟩
          · cases heq
            refine Or.inl ⟨rfl, ?_⟩
            intro q hq
            rcases List.mem_cons.mp hq with rfl | hq
            · exact not_lt.mp hgt
            · exact hall q hq
          · refine Or.inr ⟨x :: l1, l2, by rw [hsplit]; rfl, ?_, hl2,
              fun c hc => by cases hc; exact hacc _ rfl⟩
            intro q hq
            rcases List.mem_cons.mp hq with rfl | hq
            · exact lt_of_le_of_lt (not_lt.mp hgt) (hacc _ rfl)
            · exact hl1 q hq

theorem pymax_fold_ne_none (m : List (String × ℚ))
    (acc : Option (String × ℚ)) (h : acc ≠ none ∨ m ≠ []) :
    m.foldl pymax_step acc ≠ none := by
  induction m generalizing acc with
  | nil =>
      rcases h with h | h
      · simpa using h
      · exact absurd rfl h
  | cons x rest ih =>
      rw [List.foldl_cons]
      refine ih _ (Or.inl ?_)
      rcases acc with _ | b
      · simp [pymax_step]
      · show (if x.2 > b.2 then some x else some b) ≠ none
        split <;> simp

theorem embedding_scores_nonneg (cos : List ℚ → List ℚ → ℚ)
    (entity : EntityNode) :
    ∀ (topics : List TopicNode) (m : List (String × ℚ)),
      (∀ e ∈ m, 0 ≤ e.2) →
      ∀ e ∈ topics.foldl (fun m t =>
        if t.summary_embedding = [] then dinsert m t.id 0
        else dinsert m t.id
          (max 0 (cosine_similarity cos entity.name_embedding
            t.summary_embedding))) m, 0 ≤ e.2 := by
  intro topics
  induction topics with
  | nil => exact fun m hm e he => hm e he
  | cons t rest ih =>
      intro m hm e he
      rw [List.foldl_cons] at he
      refine ih _ ?_ e he
      intro q hq
      split at hq
      · rcases mem_dinsert hq with rfl | hq
        · exact le_refl 0
        · exact hm q hq
      · rcases mem_dinsert hq with rfl | hq
        · exact le_max_left 0 _
        · exact hm q hq

/-- C5: LouvainDetector.assign with the default α = 1/2 fails with the
no-leaf-topics condition exactly when no level-0 topic exists; otherwise it
returns the id of the first leaf-topic entry attaining the maximal combined
score α·edge + (1-α)·embedding (ties broken by first-encountered order), and
every embedding score entering that combination is floored at zero. -/
theorem louvain_assign_spec (cos : List ℚ → List ℚ → ℚ) (ncount : String → Nat)
    (entity : EntityNode) (topics : List TopicNode) :
    defaultAlpha = 1/2 ∧
    (∀ e ∈ compute_embedding_scores cos entity
        (topics.filter (fun t => t.level = 0)), 0 ≤ e.2) ∧
    (topics.filter (fun t => t.level = 0) = [] →
      louvain_assign cos ncount entity topics defaultAlpha =
        .error (.valueError "No leaf-level topics available for assignment")) ∧
    (topics.filter (fun t => t.level = 0) ≠ [] →
      ∃ p l1 l2,
        louvain_assign cos ncount entity topics defaultAlpha = .ok p.1 ∧
        combined_scores cos ncount entity
          (topics.filter (fun t => t.level = 0)) defaultAlpha = l1 ++ p :: l2 ∧
        (∀ q ∈ l1, q.2 < p.2) ∧
        (∀ q ∈ combined_scores cos ncount entity
            (topics.filter (fun t => t.level = 0)) defaultAlpha, q.2 ≤ p.2)) := by
  refine ⟨rfl, ?_, ?_, ?_⟩
  · exact embedding_scores_nonneg cos entity _ [] (by simp)
  · intro h
    unfold louvain_assign
    rw [if_pos h]
  · intro h
    have hcomb : combined_scores cos ncount entity
        (topics.filter (fun t => t.level = 0)) defaultAlpha ≠ [] := by
      unfold combined_scores
      exact foldl_dinsert_ne_nil _ _ _ [] (Or.inr h)
    rcases hres : (combined_scores cos ncount entity
        (topics.filter (fun t => t.level = 0)) defaultAlpha).foldl
        pymax_step none with _ | p
    · exact absurd hres (pymax_fold_ne_none _ none (Or.inr hcomb))
    · rcases pymax_fold_spec _ none p hres with ⟨heq, _⟩ | ⟨l1, l2, hsplit, hl1, hl2, _⟩
      · exact absurd heq (by simp)
      · refine ⟨p, l1, l2, ?_, hsplit, hl1, ?_⟩
        · unfold louvain_assign
          rw [if_neg h, if_neg hcomb]
          unfold pymax_by_value
          rw [hres]
          rfl
        · intro q hq
          rw [hsplit] at hq
          rcases List.mem_append.mp hq with hq | hq
          · exact le_of_lt (hl1 q hq)
          · rcases List.mem_cons.mp hq with rfl | hq
            · exact le_refl _
            · exact hl2 q hq

def entC5 : EntityNode :=
  { id := "e5", name := "Apple", name_embedding := [1], summary := "" }

def topC5 : TopicNode :=
  { id := "t0", name := "T", summary := "", summary_embedding := [], level := 0 }

/-- Witness for C5: no topics at all fails; one leaf topic is assigned. -/
theorem louvain_assign_spec_witness :
    louvain_assign (fun _ _ => 0) (fun _ => 0) entC5 [] defaultAlpha =
      .error (.valueError "No leaf-level topics available for assignment") ∧
    (∃ p l1 l2,
      louvain_assign (fun _ _ => 0) (fun _ => 0) entC5 [topC5] defaultAlpha =
        .ok p.1 ∧
      combined_scores (fun _ _ => 0) (fun _ => 0) entC5
        ([topC5].filter (fun t => t.level = 0)) defaultAlpha = l1 ++ p :: l2 ∧
      (∀ q ∈ l1, q.2 < p.2) ∧
      (∀ q ∈ combined_scores (fun _ _ => 0) (fun _ => 0) entC5
          ([topC5].filter (fun t => t.level = 0)) defaultAlpha, q.2 ≤ p.2)) :=
  ⟨(louvain_assign_spec (fun _ _ => 0) (fun _ => 0) entC5 []).2.2.1 rfl,
   (louvain_assign_spec (fun _ _ => 0) (fun _ => 0) entC5 [topC5]).2.2.2
     (by simp [topC5])⟩

/-! ### Community detection (minerva/core/community.py)

`community_louvain.generate_dendrogram` and `HLC.single_linkage` are external
to the embedded modules (python-louvain; minerva/clustering/link_clustering
is not among the sources), so their outputs — the dendrogram, respectively
`edge2cid` and the linkage — are explicit parameters. -/

/-- CommunityHierarchy: all five fields are declared with
`Field(description=...)` and no default, so all five are required. -/
structure CommunityHierarchy where
  topics : List TopicNode
  subtopic_relations : List IsSubtopicRelation
  belongs_to_relations : List BelongsToRelation
  updated_relations : List RelatesToRelation
  num_levels : Int
deriving Repr

def community_hierarchy_required_fields : List String :=
  ["topics", "subtopic_relations", "belongs_to_relations", "updated_relations",
   "num_levels"]

/-- nx.Graph node list of _build_graph: one node per entity, plus the
endpoints `add_edge` introduces; insertion order, duplicates collapsed. -/
def graph_nodes (entities : List EntityNode)
    (relations : List RelatesToRelation) : List String :=
  (entities.map EntityNode.id ++
    relations.flatMap (fun r => [r.from_id, r.to_id])).dedup

/-- `tuple(sorted([from_id, to_id]))` (_convert_to_hlc_format). -/
def edge_key (a b : String) : String × String :=
  if pyStrLe a b then (a, b) else (b, a)

/-- The collapsed undirected edge set: empty exactly when no relation is. -/
def graph_edges (relations : List RelatesToRelation) : List (String × String) :=
  (relations.map (fun r => edge_key r.from_id r.to_id)).dedup

/-- `edge_to_relation` of _convert_to_hlc_format (later relations overwrite
earlier ones on the same collapsed edge). -/
def edge_to_relation_map (relations : List RelatesToRelation) :
    List ((String × String) × RelatesToRelation) :=
  relations.foldl (fun m r => dinsert m (edge_key r.from_id r.to_id) r) []

/-! #### LouvainDetector -/

/-- The `CommunityHierarchy(...)` constructor calls of LouvainDetector.detect:
every one of them supplies topics, subtopic_relations, belongs_to_relations
and num_levels but omits the required `updated_relations`, so pydantic
rejects every one of them (the `.ok` arm is unreachable; its
`updated_relations := []` filler never escapes). -/
def louvain_return (topics : List TopicNode) (subs : List IsSubtopicRelation)
    (belongs : List BelongsToRelation) (num_levels : Int) :
    Except PyError CommunityHierarchy :=
  match pydantic_check "CommunityHierarchy" community_hierarchy_required_fields
      ["topics", "subtopic_relations", "belongs_to_relations", "num_levels"] with
  | .error e => .error e
  | .ok _ => .ok { topics := topics, subtopic_relations := subs,
                   belongs_to_relations := belongs, updated_relations := [],
                   num_levels := num_levels }

/-- `community = dendrogram[0].get(node, 0)` followed by
`community = dendrogram[i].get(community, 0)` for i = 1..lvl: the partition
of `node` at dendrogram level `lvl`. -/
def community_at (d0 : List (String × Int)) (rest : List (List (Int × Int)))
    (node : String) (lvl : Nat) : Int :=
  (rest.take lvl).foldl (fun c m => dgetD m c 0) (dgetD d0 node 0)

/-- `set(level_partitions[j].values())` in first-appearance order (stored
level j is dendrogram level j+1). -/
def level_communities (nodes : List String) (d0 : List (String × Int))
    (rest : List (List (Int × Int))) (j : Nat) : List Int :=
  (nodes.map (fun nd => community_at d0 rest nd (j + 1))).dedup

/-- The (stored_level, community_id) keys of `level_topic_map`, in creation
order. -/
def louvain_topic_keys (nodes : List String) (d0 : List (String × Int))
    (rest : List (List (Int × Int))) : List (Nat × Int) :=
  (List.range rest.length).flatMap (fun j =>
    (level_communities nodes d0 rest j).map (fun c => (j, c)))

/-- One TopicNode per key, with a fresh uuid (embedded as the running
creation index) and `level := stored_level`. -/
def louvain_topic_entries (nodes : List String) (d0 : List (String × Int))
    (rest : List (List (Int × Int))) : List ((Nat × Int) × TopicNode) :=
  (louvain_topic_keys nodes d0 rest).enum.map (fun p =>
    (p.2, { id := uuidOf p.1
            name := "Topic_" ++ toString p.2.1 ++ "_" ++ toString p.2.2
            summary := ""
            summary_embedding := []
            level := (p.2.1 : Int) }))

def louvain_topics (nodes : List String) (d0 : List (String × Int))
    (rest : List (List (Int × Int))) : List TopicNode :=
  (louvain_topic_entries nodes d0 rest).map Prod.snd

/-- `level_topic_map`. -/
def louvain_ltm (nodes : List String) (d0 : List (String × Int))
    (rest : List (List (Int × Int))) : List ((Nat × Int) × String) :=
  (louvain_topic_entries nodes d0 rest).map (fun e => (e.1, e.2.id))

/-- Membership edges from `level_partitions[0]`. -/
def louvain_belongs (nodes : List String) (d0 : List (String × Int))
    (rest : List (List (Int × Int))) : List BelongsToRelation :=
  nodes.map (fun nd =>
    { from_id := nd
      to_id := dgetD (louvain_ltm nodes d0 rest) (0, community_at d0 rest nd 1) "" })

/-- The `child_to_parent` dict for stored level j (a node's level-j community
maps to its level-(j+1) community; later nodes overwrite). -/
def louvain_child_to_parent (nodes : List String) (d0 : List (String × Int))
    (rest : List (List (Int × Int))) (j : Nat) : List (Int × Int) :=
  nodes.foldl (fun m nd =>
    dinsert m (community_at d0 rest nd (j + 1)) (community_at d0 rest nd (j + 2))) []

/-- IS_SUBTOPIC edges: one per `child_to_parent` entry per adjacent level
pair. -/
def louvain_subtopic_relations (nodes : List String) (d0 : List (String × Int))
    (rest : List (List (Int × Int))) : List IsSubtopicRelation :=
  (List.range (rest.length - 1)).flatMap (fun j =>
    (louvain_child_to_parent nodes d0 rest j).map (fun cp =>
      { from_id := dgetD (louvain_ltm nodes d0 rest) (j, cp.1) ""
        to_id := dgetD (louvain_ltm nodes d0 rest) (j + 1, cp.2) "" }))

/-- LouvainDetector.detect.  `d0` is `dendrogram[0]`, `rest` the remaining
dendrogram levels, so `len(dendrogram) = 1 + rest.length`. -/
def louvain_detect (entities : List EntityNode)
    (relations : List RelatesToRelation) (d0 : List (String × Int))
    (rest : List (List (Int × Int))) : Except PyError CommunityHierarchy :=
  let nodes := graph_nodes entities relations
  if nodes = [] then louvain_return [] [] [] 0
  else if 1 + rest.length ≤ 1 then louvain_return [] [] [] 0
  else louvain_return (louvain_topics nodes d0 rest)
    (louvain_subtopic_relations nodes d0 rest)
    (louvain_belongs nodes d0 rest) (rest.length : Int)

/-! #### HLCDetector -/

/-- Leaf edge-community ids: `set(edge2cid.values())` in first-appearance
order. -/
def hlc_leaf_cids (edge2cid : List ((String × String) × Int)) : List Int :=
  (edge2cid.map Prod.snd).dedup

/-- One level-0 TopicNode per leaf community id (fresh uuid per creation
index). -/
def hlc_leaf_entries (edge2cid : List ((String × String) × Int)) :
    List (Int × TopicNode) :=
  (hlc_leaf_cids edge2cid).enum.map (fun p =>
    (p.2, { id := uuidOf p.1
            name := "EdgeCommunity_0_" ++ toString p.2
            summary := ""
            summary_embedding := []
            level := 0 }))

/-- `node_to_topics`: each endpoint of each clustered edge collects the leaf
topic of the edge's community (set semantics: duplicates collapsed). -/
def hlc_node_to_topics (edge2cid : List ((String × String) × Int))
    (c2t : List (Int × String)) : List (String × List String) :=
  edge2cid.foldl (fun m ec =>
    let tid := dgetD c2t ec.2 ""
    let m1 := dinsert m ec.1.1 ((dgetD m ec.1.1 []) ++ [tid]).dedup
    dinsert m1 ec.1.2 ((dgetD m1 ec.1.2 []) ++ [tid]).dedup) []

def hlc_belongs (edge2cid : List ((String × String) × Int))
    (c2t : List (Int × String)) : List BelongsToRelation :=
  (hlc_node_to_topics edge2cid c2t).flatMap (fun e =>
    e.2.map (fun tid => { from_id := e.1, to_id := tid }))

/-- The same loop executes `edge_to_relation[edge].topic_id = topic_id`;
RelatesToRelation declares no field `topic_id`, and a pydantic BaseModel
rejects assignment to an undeclared attribute with a ValueError, so the loop
raises on the first clustered edge that is a key of `edge_to_relation`. -/
def hlc_topic_tagging (edge2cid : List ((String × String) × Int))
    (etr : List ((String × String) × RelatesToRelation)) :
    Except PyError Unit :=
  if edge2cid.any (fun ec => (dlookup etr ec.1).isSome) then
    .error (.valueError "RelatesToRelation object has no field topic_id")
  else .ok ()

/-- Mutable state of the linkage loop in _build_hierarchy_from_linkage. -/
structure HLCState where
  c2t : List (Int × String)
  c2l : List (Int × Int)
  c2e : List (Int × List (String × String))
  topics : List TopicNode
  edges : List IsSubtopicRelation
  nextCid : Int
  counter : Nat

/-- State before the linkage loop: leaf topics, their maps, and
`next_cid = max(edge2cid.values()) + 1` (`maxCid` is that maximum). -/
def hlc_init (edge2cid : List ((String × String) × Int)) (maxCid : Int) :
    HLCState :=
  { c2t := (hlc_leaf_entries edge2cid).map (fun e => (e.1, e.2.id))
    c2l := (hlc_leaf_cids edge2cid).map (fun c => (c, 0))
    c2e := edge2cid.foldl (fun m ec =>
      dinsert m ec.2 ((dgetD m ec.2 []) ++ [ec.1]).dedup) []
    topics := (hlc_leaf_entries edge2cid).map Prod.snd
    edges := []
    nextCid := maxCid + 1
    counter := (hlc_leaf_cids edge2cid).length }

/-- `parent_level = max(child1_level, child2_level) + 1`, each child level
read with default -1 when the child community is live and pinned to -1 when
it is not. -/
def hlc_plevel (st : HLCState) (c1 c2 : Int) : Int :=
  max (if (dlookup st.c2t c1).isSome then dgetD st.c2l c1 (-1) else -1)
    (if (dlookup st.c2t c2).isSome then dgetD st.c2l c2 (-1) else -1) + 1

/-- The parent TopicNode of one merge (fresh uuid, `next_cid` in the name). -/
def hlc_ptopic (st : HLCState) (c1 c2 : Int) : TopicNode :=
  { id := uuidOf st.counter
    name := "EdgeCommunity_" ++ toString (hlc_plevel st c1 c2) ++ "_" ++
      toString st.nextCid
    summary := ""
    summary_embedding := []
    level := hlc_plevel st c1 c2 }

/-- The IS_SUBTOPIC edges of one merge: one per live child, looked up in
`cid_to_topic_id` after the parent has been inserted (as the source does). -/
def hlc_new_edges (st : HLCState) (c1 c2 : Int) : List IsSubtopicRelation :=
  (if (dlookup st.c2t c1).isSome then
    [{ from_id := dgetD (dinsert st.c2t st.nextCid (hlc_ptopic st c1 c2).id) c1 ""
       to_id := (hlc_ptopic st c1 c2).id }] else []) ++
  (if (dlookup st.c2t c2).isSome then
    [{ from_id := dgetD (dinsert st.c2t st.nextCid (hlc_ptopic st c1 c2).id) c2 ""
       to_id := (hlc_ptopic st c1 c2).id }] else [])

/-- The non-skip branch of one linkage merge: create the parent topic, link
each live child under it, and merge the child edge sets. -/
def hlc_merge (st : HLCState) (c1 c2 : Int) : HLCState :=
  { c2t := dinsert st.c2t st.nextCid (hlc_ptopic st c1 c2).id
    c2l := dinsert st.c2l st.nextCid (hlc_plevel st c1 c2)
    c2e := dinsert st.c2e st.nextCid
      (((if (dlookup st.c2t c1).isSome then dgetD st.c2e c1 [] else []) ++
        (if (dlookup st.c2t c2).isSome then dgetD st.c2e c2 [] else [])).dedup)
    topics := st.topics ++ [hlc_ptopic st c1 c2]
    edges := st.edges ++ hlc_new_edges st c1 c2
    nextCid := st.nextCid + 1
    counter := st.counter + 1 }

/-- One linkage merge: skip when neither child community is live. -/
def hlc_step (st : HLCState) (m : Int × Int × ℚ) : HLCState :=
  if (dlookup st.c2t m.1).isSome = false ∧ (dlookup st.c2t m.2.1).isSome = false
  then st
  else hlc_merge st m.1 m.2.1

/-- `max(t.level for t in topics) + 1 if topics else 0`. -/
def hlc_num_levels (topics : List TopicNode) : Int :=
  match topics with
  | [] => 0
  | t :: ts => (ts.foldl (fun acc x => max acc x.level) t.level) + 1

/-- HLCDetector._build_hierarchy_from_linkage. -/
def hlc_build_hierarchy (edge2cid : List ((String × String) × Int))
    (linkage : List (Int × Int × ℚ))
    (etr : List ((String × String) × RelatesToRelation)) :
    Except PyError CommunityHierarchy :=
  match hlc_topic_tagging edge2cid etr with
  | .error e => .error e
  | .ok _ =>
    let c2t0 := (hlc_leaf_entries edge2cid).map (fun e => (e.1, e.2.id))
    let belongs := hlc_belongs edge2cid c2t0
    if linkage = [] then
      .ok { topics := (hlc_leaf_entries edge2cid).map Prod.snd
            subtopic_relations := []
            belongs_to_relations := belongs
            updated_relations := etr.map Prod.snd
            num_levels := 1 }
    else
      match edge2cid.map Prod.snd with
      | [] => .error (.valueError "max() arg is an empty sequence")
      | v :: vs =>
        let st := linkage.foldl hlc_step (hlc_init edge2cid (vs.foldl max v))
        .ok { topics := st.topics
              subtopic_relations := st.edges
              belongs_to_relations := belongs
              updated_relations := etr.map Prod.snd
              num_levels := hlc_num_levels st.topics }

/-- HLCDetector.detect: empty node or edge set short-circuits to the empty
hierarchy; otherwise the HLC outputs are turned into the topic tree. -/
def hlc_detect (entities : List EntityNode)
    (relations : List RelatesToRelation)
    (edge2cid : List ((String × String) × Int))
    (linkage : List (Int × Int × ℚ)) : Except PyError CommunityHierarchy :=
  if graph_nodes entities relations = [] ∨ graph_edges relations = [] then
    .ok { topics := [], subtopic_relations := [], belongs_to_relations := [],
          updated_relations := [], num_levels := 0 }
  else
    hlc_build_hierarchy edge2cid linkage (edge_to_relation_map relations)

theorem louvain_return_error (topics : List TopicNode)
    (subs : List IsSubtopicRelation) (belongs : List BelongsToRelation)
    (num_levels : Int) :
    louvain_return topics subs belongs num_levels =
      .error (.validationError "CommunityHierarchy" ["updated_relations"]) := rfl

/-- C2: on an edgeless input, HLCDetector.detect returns the empty hierarchy
(zero levels, empty lists) as a normal value, but LouvainDetector.detect —
on every input and dendrogram, the empty ones included — raises a pydantic
validation error instead of returning, because each of its
CommunityHierarchy constructor calls omits the required field
`updated_relations`. -/
theorem detect_on_empty_input (entities : List EntityNode)
    (relations : List RelatesToRelation) (d0 : List (String × Int))
    (rest : List (List (Int × Int)))
    (edge2cid : List ((String × String) × Int))
    (linkage : List (Int × Int × ℚ)) :
    louvain_detect entities relations d0 rest =
      .error (.validationError "CommunityHierarchy" ["updated_relations"]) ∧
    hlc_detect entities [] edge2cid linkage =
      .ok { topics := [], subtopic_relations := [], belongs_to_relations := [],
            updated_relations := [], num_levels := 0 } := by
  constructor
  · unfold louvain_detect
    dsimp only
    split_ifs <;> exact louvain_return_error _ _ _ _
  · unfold hlc_detect
    have hedges : graph_edges ([] : List RelatesToRelation) = [] := rfl
    rw [if_pos (Or.inr hedges)]

/-! #### Level monotonicity of subtopic edges (C9) -/

theorem uuidOf_injective : Function.Injective uuidOf := by
  intro a b h
  have hd : List.replicate a 'u' = List.replicate b 'u' := congrArg String.data h
  have := congrArg List.length hd
  simpa using this

theorem foldl_dinsert_mem {α β γ : Type} [DecidableEq α] (f : γ → α) (g : γ → β) :
    ∀ (l : List γ) (m : List (α × β)) (e : α × β),
      e ∈ l.foldl (fun m nd => dinsert m (f nd) (g nd)) m →
      e ∈ m ∨ ∃ nd ∈ l, e = (f nd, g nd) := by
  intro l
  induction l with
  | nil => exact fun m e he => Or.inl he
  | cons x rest ih =>
      intro m e he
      rw [List.foldl_cons] at he
      rcases ih _ e he with hm | ⟨nd, hnd, rfl⟩
      · rcases mem_dinsert hm with rfl | hm
        · exact Or.inr ⟨x, List.mem_cons_self _ _, rfl⟩
        · exact Or.inl hm
      · exact Or.inr ⟨nd, List.mem_cons_of_mem _ hnd, rfl⟩

theorem le_foldl_max : ∀ (l : List Int) (a : Int),
    a ≤ l.foldl max a ∧ ∀ x ∈ l, x ≤ l.foldl max a := by
  intro l
  induction l with
  | nil => exact fun a => ⟨le_refl a, by simp⟩
  | cons y ys ih =>
      intro a
      rw [List.foldl_cons]
      refine ⟨le_trans (le_max_left a y) (ih (max a y)).1, ?_⟩
      intro x hx
      rcases List.mem_cons.mp hx with rfl | hx
      · exact le_trans (le_max_right a x) (ih (max a x)).1
      · exact (ih (max a y)).2 x hx

theorem dlookup_map_pair {α β : Type} [DecidableEq α] (f : α → β) :
    ∀ (l : List α) (c : α), c ∈ l →
      dlookup (l.map (fun x => (x, f x))) c = some (f c) := by
  intro l
  induction l with
  | nil => exact fun c hc => absurd hc (List.not_mem_nil c)
  | cons x rest ih =>
      intro c hc
      rcases List.mem_cons.mp hc with rfl | hc
      · simp [dlookup]
      · by_cases hxc : x = c
        · subst hxc
          simp [dlookup]
        · simp only [List.map_cons]
          unfold dlookup
          rw [if_neg hxc]
          exact ih c hc

theorem louvain_topics_map_id (nodes : List String) (d0 : List (String × Int))
    (rest : List (List (Int × Int))) :
    (louvain_topics nodes d0 rest).map TopicNode.id =
      (List.range (louvain_topic_keys nodes d0 rest).length).map uuidOf := by
  unfold louvain_topics louvain_topic_entries
  simp only [List.map_map]
  rw [← List.enum_map_fst (louvain_topic_keys nodes d0 rest)]
  simp only [List.map_map]
  rfl

theorem louvain_ids_nodup (nodes : List String) (d0 : List (String × Int))
    (rest : List (List (Int × Int))) :
    ((louvain_topics nodes d0 rest).map TopicNode.id).Nodup := by
  rw [louvain_topics_map_id]
  exact (List.nodup_range _).map uuidOf_injective

theorem louvain_ltm_lookup {nodes : List String} {d0 : List (String × Int)}
    {rest : List (List (Int × Int))} {jc : Nat × Int} {tid : String}
    (h : dlookup (louvain_ltm nodes d0 rest) jc = some tid) :
    ∃ t ∈ louvain_topics nodes d0 rest, t.id = tid ∧ t.level = (jc.1 : Int) := by
  have hmem := dlookup_mem h
  unfold louvain_ltm at hmem
  rcases List.mem_map.mp hmem with ⟨e, hemem, heq⟩
  have h1 : e.1 = jc := congrArg Prod.fst heq
  have h2 : e.2.id = tid := congrArg Prod.snd heq
  refine ⟨e.2, List.mem_map_of_mem Prod.snd hemem, h2, ?_⟩
  unfold louvain_topic_entries at hemem
  rcases List.mem_map.mp hemem with ⟨p, _, rfl⟩
  rw [← h1]

theorem louvain_ltm_isSome {nodes : List String} {d0 : List (String × Int)}
    {rest : List (List (Int × Int))} {jc : Nat × Int}
    (h : jc ∈ louvain_topic_keys nodes d0 rest) :
    (dlookup (louvain_ltm nodes d0 rest) jc).isSome := by
  have hex : ∃ e ∈ louvain_topic_entries nodes d0 rest, e.1 = jc := by
    unfold louvain_topic_entries
    have h2 : jc ∈ (louvain_topic_keys nodes d0 rest).enum.map Prod.snd := by
      rw [List.enum_map_snd]
      exact h
    rcases List.mem_map.mp h2 with ⟨p, hp, hpe⟩
    exact ⟨_, List.mem_map_of_mem _ hp, hpe⟩
  rcases hex with ⟨e, he, rfl⟩
  have hm : (e.1, e.2.id) ∈ louvain_ltm nodes d0 rest :=
    List.mem_map_of_mem (fun e => (e.1, e.2.id)) he
  exact dlookup_isSome_of_mem hm

theorem mem_louvain_topic_keys {nodes : List String} {d0 : List (String × Int)}
    {rest : List (List (Int × Int))} {j : Nat} {nd : String}
    (hj : j < rest.length) (hnd : nd ∈ nodes) :
    (j, community_at d0 rest nd (j + 1)) ∈ louvain_topic_keys nodes d0 rest := by
  unfold louvain_topic_keys
  refine List.mem_flatMap.mpr ⟨j, List.mem_range.mpr hj, ?_⟩
  refine List.mem_map.mpr ⟨community_at d0 rest nd (j + 1), ?_, rfl⟩
  unfold level_communities
  exact List.mem_dedup.mpr (List.mem_map_of_mem _ hnd)

theorem louvain_subtopic_level_lt (nodes : List String)
    (d0 : List (String × Int)) (rest : List (List (Int × Int))) :
    ∀ e ∈ louvain_subtopic_relations nodes d0 rest,
      ∀ tc ∈ louvain_topics nodes d0 rest, tc.id = e.from_id →
      ∀ tp ∈ louvain_topics nodes d0 rest, tp.id = e.to_id →
        tc.level < tp.level := by
  intro e he tc htc hidc tp htp hidp
  unfold louvain_subtopic_relations at he
  rcases List.mem_flatMap.mp he with ⟨j, hj, he2⟩
  rcases List.mem_map.mp he2 with ⟨cp, hcp, rfl⟩
  have hjlt : j < rest.length - 1 := List.mem_range.mp hj
  have hjlen : j < rest.length := lt_of_lt_of_le hjlt (Nat.sub_le _ _)
  have hj1len : j + 1 < rest.length := by omega
  rcases foldl_dinsert_mem _ _ nodes [] cp hcp with hfalse | ⟨nd, hnd, rfl⟩
  · cases hfalse
  have hk1 := @mem_louvain_topic_keys nodes d0 rest j nd hjlen hnd
  have hk2 := @mem_louvain_topic_keys nodes d0 rest (j + 1) nd hj1len hnd
  rcases hs1 : dlookup (louvain_ltm nodes d0 rest)
      (j, community_at d0 rest nd (j + 1)) with _ | tid1
  · have hsome := louvain_ltm_isSome hk1
    rw [hs1] at hsome
    simp at hsome
  rcases hs2 : dlookup (louvain_ltm nodes d0 rest)
      (j + 1, community_at d0 rest nd (j + 1 + 1)) with _ | tid2
  · have hsome := louvain_ltm_isSome hk2
    rw [hs2] at hsome
    simp at hsome
  obtain ⟨t1, ht1, ht1id, ht1lvl⟩ := louvain_ltm_lookup hs1
  obtain ⟨t2, ht2, ht2id, ht2lvl⟩ := louvain_ltm_lookup hs2
  have hfrom : dgetD (louvain_ltm nodes d0 rest)
      (j, community_at d0 rest nd (j + 1)) "" = tid1 := by
    unfold dgetD
    rw [hs1]
    rfl
  have hto : dgetD (louvain_ltm nodes d0 rest)
      (j + 1, community_at d0 rest nd (j + 1 + 1)) "" = tid2 := by
    unfold dgetD
    rw [hs2]
    rfl
  have hinj := louvain_ids_nodup nodes d0 rest
  have htceq : tc = t1 := by
    refine List.inj_on_of_nodup_map hinj htc ht1 ?_
    rw [ht1id]
    exact hidc.trans hfrom
  have htpeq : tp = t2 := by
    refine List.inj_on_of_nodup_map hinj htp ht2 ?_
    rw [ht2id]
    exact hidp.trans hto
  rw [htceq, htpeq, ht1lvl, ht2lvl]
  exact_mod_cast Nat.lt_succ_self j

/-- Loop invariant of _build_hierarchy_from_linkage: topic ids are the fresh
ids handed out so far (hence distinct), the community maps agree with the
topics created, edges run between created topics, every edge climbs strictly
in level, and every live community id predates `next_cid`. -/
structure HLCInv (st : HLCState) : Prop where
  ids_lt : ∀ t ∈ st.topics, ∃ i, i < st.counter ∧ t.id = uuidOf i
  ids_nodup : (st.topics.map TopicNode.id).Nodup
  c2t_sound : ∀ c tid, dlookup st.c2t c = some tid →
    ∃ t ∈ st.topics, t.id = tid ∧ dlookup st.c2l c = some t.level
  edges_exist : ∀ e ∈ st.edges,
    (∃ t ∈ st.topics, t.id = e.from_id) ∧ ∃ t ∈ st.topics, t.id = e.to_id
  edges_mono : ∀ e ∈ st.edges, ∀ tc ∈ st.topics, tc.id = e.from_id →
    ∀ tp ∈ st.topics, tp.id = e.to_id → tc.level < tp.level
  keys_lt : ∀ p ∈ st.c2t, p.1 < st.nextCid

theorem HLCInv.fresh_id {st : HLCState} (h : HLCInv st) :
    ∀ t ∈ st.topics, t.id ≠ uuidOf st.counter := by
  intro t ht heq
  obtain ⟨i, hi, hid⟩ := h.ids_lt t ht
  have : uuidOf i = uuidOf st.counter := by
    rw [← hid]
    exact heq
  exact absurd (uuidOf_injective this) (Nat.ne_of_lt hi)

theorem HLCInv.live_lt {st : HLCState} (h : HLCInv st) {c : Int}
    (hc : (dlookup st.c2t c).isSome = true) : c < st.nextCid := by
  rcases hl : dlookup st.c2t c with _ | tid
  · rw [hl] at hc
    simp at hc
  · exact h.keys_lt (c, tid) (dlookup_mem hl)

theorem hlc_plevel_gt_left {st : HLCState} {c1 c2 lvl : Int}
    (h1 : (dlookup st.c2t c1).isSome = true)
    (hl : dlookup st.c2l c1 = some lvl) : lvl < hlc_plevel st c1 c2 := by
  unfold hlc_plevel
  have hval : (if (dlookup st.c2t c1).isSome then dgetD st.c2l c1 (-1)
      else (-1 : Int)) = lvl := by
    rw [if_pos h1]
    unfold dgetD
    rw [hl]
    rfl
  calc lvl = (if (dlookup st.c2t c1).isSome then dgetD st.c2l c1 (-1)
      else (-1 : Int)) := hval.symm
    _ ≤ max _ (if (dlookup st.c2t c2).isSome then dgetD st.c2l c2 (-1)
      else (-1 : Int)) := le_max_left _ _
    _ < _ + 1 := lt_add_one _

theorem hlc_plevel_gt_right {st : HLCState} {c1 c2 lvl : Int}
    (h2 : (dlookup st.c2t c2).isSome = true)
    (hl : dlookup st.c2l c2 = some lvl) : lvl < hlc_plevel st c1 c2 := by
  unfold hlc_plevel
  have hval : (if (dlookup st.c2t c2).isSome then dgetD st.c2l c2 (-1)
      else (-1 : Int)) = lvl := by
    rw [if_pos h2]
    unfold dgetD
    rw [hl]
    rfl
  calc lvl = (if (dlookup st.c2t c2).isSome then dgetD st.c2l c2 (-1)
      else (-1 : Int)) := hval.symm
    _ ≤ max (if (dlookup st.c2t c1).isSome then dgetD st.c2l c1 (-1)
      else (-1 : Int)) _ := le_max_right _ _
    _ < _ + 1 := lt_add_one _

theorem mem_hlc_new_edges {st : HLCState} {c1 c2 : Int}
    {e : IsSubtopicRelation} (he : e ∈ hlc_new_edges st c1 c2) :
    ((dlookup st.c2t c1).isSome = true ∧
      e = { from_id := dgetD (dinsert st.c2t st.nextCid
              (hlc_ptopic st c1 c2).id) c1 ""
            to_id := (hlc_ptopic st c1 c2).id }) ∨
    ((dlookup st.c2t c2).isSome = true ∧
      e = { from_id := dgetD (dinsert st.c2t st.nextCid
              (hlc_ptopic st c1 c2).id) c2 ""
            to_id := (hlc_ptopic st c1 c2).id }) := by
  unfold hlc_new_edges at he
  rcases List.mem_append.mp he with he | he
  · by_cases h1 : (dlookup st.c2t c1).isSome = true
    · rw [if_pos h1, List.mem_singleton] at he
      exact Or.inl ⟨h1, he⟩
    · rw [if_neg h1] at he
      cases he
  · by_cases h2 : (dlookup st.c2t c2).isSome = true
    · rw [if_pos h2, List.mem_singleton] at he
      exact Or.inr ⟨h2, he⟩
    · rw [if_neg h2] at he
      cases he

theorem hlc_child_edge_exists {st : HLCState} (h : HLCInv st) {ci : Int}
    (hlive : (dlookup st.c2t ci).isSome = true) (c1 c2 : Int) :
    ∃ t ∈ st.topics ++ [hlc_ptopic st c1 c2],
      t.id = dgetD (dinsert st.c2t st.nextCid (hlc_ptopic st c1 c2).id) ci "" := by
  have hne : st.nextCid ≠ ci := ne_of_gt (h.live_lt hlive)
  rcases hl : dlookup st.c2t ci with _ | tid
  · rw [hl] at hlive
    simp at hlive
  obtain ⟨t, ht, hid, _⟩ := h.c2t_sound ci tid hl
  refine ⟨t, List.mem_append_left _ ht, ?_⟩
  unfold dgetD
  rw [dlookup_dinsert_ne _ _ hne, hl, hid]
  rfl

theorem hlc_child_edge_mono {st : HLCState} (h : HLCInv st) {ci c1 c2 : Int}
    (hlive : (dlookup st.c2t ci).isSome = true)
    (hplevel : ∀ lvl, dlookup st.c2l ci = some lvl → lvl < hlc_plevel st c1 c2) :
    ∀ tc ∈ st.topics ++ [hlc_ptopic st c1 c2],
      tc.id = dgetD (dinsert st.c2t st.nextCid (hlc_ptopic st c1 c2).id) ci "" →
    ∀ tp ∈ st.topics ++ [hlc_ptopic st c1 c2],
      tp.id = (hlc_ptopic st c1 c2).id → tc.level < tp.level := by
  intro tc htc hidc tp htp hidp
  have hne : st.nextCid ≠ ci := ne_of_gt (h.live_lt hlive)
  rcases hl : dlookup st.c2t ci with _ | tid
  · rw [hl] at hlive
    simp at hlive
  obtain ⟨t, ht, hid, hlvl⟩ := h.c2t_sound ci tid hl
  have hfrom : dgetD (dinsert st.c2t st.nextCid (hlc_ptopic st c1 c2).id) ci ""
      = tid := by
    unfold dgetD
    rw [dlookup_dinsert_ne _ _ hne, hl]
    rfl
  have htpnew : tp = hlc_ptopic st c1 c2 := by
    rcases List.mem_append.mp htp with h' | h'
    · exact absurd hidp (h.fresh_id tp h')
    · rwa [List.mem_singleton] at h'
  have htcold : tc ∈ st.topics := by
    rcases List.mem_append.mp htc with h' | h'
    · exact h'
    · rw [List.mem_singleton] at h'
      subst h'
      refine absurd ?_ (h.fresh_id t ht)
      rw [hid]
      exact hfrom.symm.trans hidc.symm
  have htceq : tc = t :=
    List.inj_on_of_nodup_map h.ids_nodup htcold ht
      (by rw [hid]; exact hidc.trans hfrom)
  rw [htceq, htpnew]
  exact hplevel t.level hlvl

theorem hlc_merge_inv {st : HLCState} (h : HLCInv st) (c1 c2 : Int) :
    HLCInv (hlc_merge st c1 c2) := by
  have hC2t : (hlc_merge st c1 c2).c2t =
      dinsert st.c2t st.nextCid (hlc_ptopic st c1 c2).id := rfl
  refine ⟨?_, ?_, ?_, ?_, ?_, ?_⟩
  · intro t ht
    rcases List.mem_append.mp ht with ht | ht
    · obtain ⟨i, hi, hid⟩ := h.ids_lt t ht
      exact ⟨i, Nat.lt_succ_of_lt hi, hid⟩
    · rw [List.mem_singleton] at ht
      subst ht
      exact ⟨st.counter, Nat.lt_succ_self _, rfl⟩
  · show ((st.topics ++ [hlc_ptopic st c1 c2]).map TopicNode.id).Nodup
    rw [List.map_append, List.nodup_append]
    refine ⟨h.ids_nodup, List.nodup_singleton _, ?_⟩
    intro a ha hb
    rcases List.mem_map.mp ha with ⟨t, ht, rfl⟩
    rw [List.map_singleton, List.mem_singleton] at hb
    exact h.fresh_id t ht hb
  · intro c tid hc
    rw [hC2t] at hc
    by_cases hcn : st.nextCid = c
    · subst hcn
      rw [dlookup_dinsert_self] at hc
      cases hc
      refine ⟨hlc_ptopic st c1 c2,
        List.mem_append_right _ (List.mem_singleton_self _), rfl, ?_⟩
      show dlookup (dinsert st.c2l st.nextCid (hlc_plevel st c1 c2)) st.nextCid
        = some (hlc_ptopic st c1 c2).level
      rw [dlookup_dinsert_self]
      rfl
    · rw [dlookup_dinsert_ne _ _ hcn] at hc
      obtain ⟨t, ht, hid, hlvl⟩ := h.c2t_sound c tid hc
      refine ⟨t, List.mem_append_left _ ht, hid, ?_⟩
      show dlookup (dinsert st.c2l st.nextCid (hlc_plevel st c1 c2)) c
        = some t.level
      rw [dlookup_dinsert_ne _ _ hcn]
      exact hlvl
  · intro e he
    rcases List.mem_append.mp he with he | he
    · obtain ⟨⟨t1, ht1, hid1⟩, t2, ht2, hid2⟩ := h.edges_exist e he
      exact ⟨⟨t1, List.mem_append_left _ ht1, hid1⟩,
        t2, List.mem_append_left _ ht2, hid2⟩
    · rcases mem_hlc_new_edges he with ⟨h1, rfl⟩ | ⟨h2, rfl⟩
      · exact ⟨hlc_child_edge_exists h h1 c1 c2,
          hlc_ptopic st c1 c2,
          List.mem_append_right _ (List.mem_singleton_self _), rfl⟩
      · exact ⟨hlc_child_edge_exists h h2 c1 c2,
          hlc_ptopic st c1 c2,
          List.mem_append_right _ (List.mem_singleton_self _), rfl⟩
  · intro e he tc htc hidc tp htp hidp
    rcases List.mem_append.mp he with he | he
    · obtain ⟨⟨t1, ht1, hid1⟩, t2, ht2, hid2⟩ := h.edges_exist e he
      have htcold : tc ∈ st.topics := by
        rcases List.mem_append.mp htc with h' | h'
        · exact h'
        · rw [List.mem_singleton] at h'
          subst h'
          exact absurd (by rw [hid1]; exact hidc.symm) (h.fresh_id t1 ht1)
      have htpold : tp ∈ st.topics := by
        rcases List.mem_append.mp htp with h' | h'
        · exact h'
        · rw [List.mem_singleton] at h'
          subst h'
          exact absurd (by rw [hid2]; exact hidp.symm) (h.fresh_id t2 ht2)
      exact h.edges_mono e he tc htcold hidc tp htpold hidp
    · rcases mem_hlc_new_edges he with ⟨h1, rfl⟩ | ⟨h2, rfl⟩
      · exact hlc_child_edge_mono h h1
          (fun lvl hl => hlc_plevel_gt_left h1 hl) tc htc hidc tp htp hidp
      · exact hlc_child_edge_mono h h2
          (fun lvl hl => hlc_plevel_gt_right h2 hl) tc htc hidc tp htp hidp
  · intro p hp
    rw [hC2t] at hp
    rcases mem_dinsert hp with rfl | hp
    · exact lt_add_one _
    · exact lt_trans (h.keys_lt p hp) (lt_add_one _)

theorem hlc_fold_inv (linkage : List (Int × Int × ℚ)) :
    ∀ st, HLCInv st → HLCInv (linkage.foldl hlc_step st) := by
  induction linkage with
  | nil => exact fun _ h => h
  | cons m rest ih =>
      intro st h
      rw [List.foldl_cons]
      refine ih _ ?_
      unfold hlc_step
      split
      · exact h
      · exact hlc_merge_inv h m.1 m.2.1

theorem hlc_leaf_entry_shape {edge2cid : List ((String × String) × Int)}
    {e : Int × TopicNode} (he : e ∈ hlc_leaf_entries edge2cid) :
    e.1 ∈ hlc_leaf_cids edge2cid ∧ e.2.level = 0 := by
  unfold hlc_leaf_entries at he
  rcases List.mem_map.mp he with ⟨p, hp, rfl⟩
  obtain ⟨hlt, hpeq⟩ := List.mem_enum hp
  exact ⟨hpeq ▸ List.getElem_mem hlt, rfl⟩

theorem hlc_leaf_topics_map_id (edge2cid : List ((String × String) × Int)) :
    ((hlc_leaf_entries edge2cid).map Prod.snd).map TopicNode.id =
      (List.range (hlc_leaf_cids edge2cid).length).map uuidOf := by
  unfold hlc_leaf_entries
  simp only [List.map_map]
  rw [← List.enum_map_fst (hlc_leaf_cids edge2cid)]
  simp only [List.map_map]
  rfl

theorem hlc_init_inv (edge2cid : List ((String × String) × Int)) (v : Int)
    (vs : List Int) (hv : edge2cid.map Prod.snd = v :: vs) :
    HLCInv (hlc_init edge2cid (vs.foldl max v)) := by
  refine ⟨?_, ?_, ?_, ?_, ?_, ?_⟩
  · intro t ht
    rcases List.mem_map.mp ht with ⟨e, he, rfl⟩
    unfold hlc_leaf_entries at he
    rcases List.mem_map.mp he with ⟨p, hp, rfl⟩
    obtain ⟨hlt, _⟩ := List.mem_enum hp
    exact ⟨p.1, hlt, rfl⟩
  · show (((hlc_leaf_entries edge2cid).map Prod.snd).map TopicNode.id).Nodup
    rw [hlc_leaf_topics_map_id]
    exact (List.nodup_range _).map uuidOf_injective
  · intro c tid hc
    have hmem := dlookup_mem hc
    rcases List.mem_map.mp hmem with ⟨e, he, heq⟩
    have h1 : e.1 = c := congrArg Prod.fst heq
    have h2 : e.2.id = tid := congrArg Prod.snd heq
    obtain ⟨hkey, hlvl0⟩ := hlc_leaf_entry_shape he
    refine ⟨e.2, List.mem_map_of_mem Prod.snd he, h2, ?_⟩
    show dlookup ((hlc_leaf_cids edge2cid).map (fun c => (c, (0 : Int)))) c
      = some e.2.level
    rw [hlvl0, ← h1]
    exact dlookup_map_pair (fun _ => (0 : Int)) _ _ hkey
  · intro e he
    cases he
  · intro e he
    cases he
  · intro p hp
    rcases List.mem_map.mp hp with ⟨e, he, rfl⟩
    obtain ⟨hkey, _⟩ := hlc_leaf_entry_shape he
    have hval : e.1 ∈ edge2cid.map Prod.snd := List.mem_dedup.mp hkey
    rw [hv] at hval
    show e.1 < vs.foldl max v + 1
    rcases List.mem_cons.mp hval with h' | h'
    · exact lt_of_le_of_lt (h' ▸ (le_foldl_max vs v).1) (lt_add_one _)
    · exact lt_of_le_of_lt ((le_foldl_max vs v).2 _ h') (lt_add_one _)

theorem hlc_build_subtopic_mono (edge2cid : List ((String × String) × Int))
    (linkage : List (Int × Int × ℚ))
    (etr : List ((String × String) × RelatesToRelation))
    (h : CommunityHierarchy)
    (hok : hlc_build_hierarchy edge2cid linkage etr = .ok h) :
    ∀ e ∈ h.subtopic_relations, ∀ tc ∈ h.topics, tc.id = e.from_id →
      ∀ tp ∈ h.topics, tp.id = e.to_id → tc.level < tp.level := by
  unfold hlc_build_hierarchy at hok
  rcases htag : hlc_topic_tagging edge2cid etr with e0 | u0 <;> rw [htag] at hok
  · cases hok
  dsimp only at hok
  by_cases hlk : linkage = []
  · rw [if_pos hlk] at hok
    cases hok
    intro e he
    cases he
  · rw [if_neg hlk] at hok
    rcases hvals : edge2cid.map Prod.snd with _ | ⟨v, vs⟩ <;> rw [hvals] at hok
    · cases hok
    · dsimp only at hok
      cases hok
      have hinv := hlc_fold_inv linkage _ (hlc_init_inv edge2cid v vs hvals)
      exact hinv.edges_mono

/-- C9: in both community-detector variants, every IS_SUBTOPIC edge built in
one detection run goes from a child topic to a parent topic of strictly
greater level: for Louvain the child sits at stored level j and the parent at
j+1; for HLC every parent is created one level above the maximum level of its
live children. -/
theorem detect_subtopic_child_level_lt_parent :
    (∀ (nodes : List String) (d0 : List (String × Int))
       (rest : List (List (Int × Int))),
      ∀ e ∈ louvain_subtopic_relations nodes d0 rest,
        ∀ tc ∈ louvain_topics nodes d0 rest, tc.id = e.from_id →
        ∀ tp ∈ louvain_topics nodes d0 rest, tp.id = e.to_id →
          tc.level < tp.level) ∧
    (∀ (edge2cid : List ((String × String) × Int))
       (linkage : List (Int × Int × ℚ))
       (etr : List ((String × String) × RelatesToRelation))
       (h : CommunityHierarchy),
      hlc_build_hierarchy edge2cid linkage etr = .ok h →
        ∀ e ∈ h.subtopic_relations, ∀ tc ∈ h.topics, tc.id = e.from_id →
          ∀ tp ∈ h.topics, tp.id = e.to_id → tc.level < tp.level) :=
  ⟨louvain_subtopic_level_lt, hlc_build_subtopic_mono⟩

def d0W : List (String × Int) := [("a", 0)]

def restW : List (List (Int × Int)) := [[(0, 0)], [(0, 0)]]

def edgeLW : IsSubtopicRelation := { from_id := uuidOf 0, to_id := uuidOf 1 }

def topicL0W : TopicNode :=
  { id := uuidOf 0, name := "Topic_0_0", summary := "",
    summary_embedding := [], level := 0 }

def topicL1W : TopicNode :=
  { id := uuidOf 1, name := "Topic_1_0", summary := "",
    summary_embedding := [], level := 1 }

def e2cW : List ((String × String) × Int) := [(("a", "b"), 0), (("b", "c"), 1)]

def lkW : List (Int × Int × ℚ) := [(0, 1, 1/2)]

def hlcT0W : TopicNode :=
  { id := uuidOf 0, name := "EdgeCommunity_0_0", summary := "",
    summary_embedding := [], level := 0 }

def hlcT1W : TopicNode :=
  { id := uuidOf 1, name := "EdgeCommunity_0_1", summary := "",
    summary_embedding := [], level := 0 }

def hlcT2W : TopicNode :=
  { id := uuidOf 2, name := "EdgeCommunity_1_2", summary := "",
    summary_embedding := [], level := 1 }

def hlcHW : CommunityHierarchy :=
  { topics := [hlcT0W, hlcT1W, hlcT2W]
    subtopic_relations := [{ from_id := uuidOf 0, to_id := uuidOf 2 },
      { from_id := uuidOf 1, to_id := uuidOf 2 }]
    belongs_to_relations := [{ from_id := "a", to_id := uuidOf 0 },
      { from_id := "b", to_id := uuidOf 0 },
      { from_id := "b", to_id := uuidOf 1 },
      { from_id := "c", to_id := uuidOf 1 }]
    updated_relations := []
    num_levels := 2 }

/-- Witness for C9: a two-level Louvain dendrogram over one node, and an HLC
run merging two leaf edge-communities under one parent. -/
theorem detect_subtopic_child_level_lt_parent_witness :
    topicL0W.level < topicL1W.level ∧ hlcT0W.level < hlcT2W.level :=
  ⟨detect_subtopic_child_level_lt_parent.1 ["a"] d0W restW edgeLW (by decide)
      topicL0W (by decide) (by decide) topicL1W (by decide) (by decide),
   detect_subtopic_child_level_lt_parent.2 e2cW lkW [] hlcHW (by rfl)
      { from_id := uuidOf 0, to_id := uuidOf 2 } (by decide)
      hlcT0W (by decide) (by decide) hlcT2W (by decide) (by decide)⟩

end Minerva
